import Mathlib

/-!
Verification of the IntrepidQ generation orchestration and retrieval-caching
engine (`backend/ai_service/core/question_generator.py`).

The Python code is shallowly embedded: strings are `String`/`List Char`,
Python floats are exact rationals `ℚ`, Python dicts keyed by model name are
association lists, and every external effect (Supabase tables, the vector
store, provider clients, `random.sample`, the wall clock) is passed in
explicitly as data or as a function parameter.  Fallible Python code is
modeled with `Option`: a `none` marks the path on which the Python original
raises.
-/

namespace IntrepidQ

/-! ## Python primitives: decimal rendering, truthiness, strip -/

/-- Decimal digit characters of `n`, most significant first; `fuel` bounds the
recursion and is sufficient whenever `n < fuel`. -/
def natChars : ℕ → ℕ → List Char
  | 0, _ => []
  | f + 1, n =>
    if n < 10 then [Nat.digitChar n]
    else natChars f (n / 10) ++ [Nat.digitChar (n % 10)]

/-- Python `str(n)` for a natural number `n`. -/
def pyStrNat (n : ℕ) : String := ⟨natChars (n + 1) n⟩

/-- Python `str(b)` for a bool: `"True"` or `"False"`. -/
def pyStrBool : Bool → String
  | true => "True"
  | false => "False"

/-- Decode a decimal digit string back to a natural number. -/
def decodeDigits (cs : List Char) : ℕ :=
  cs.foldl (fun acc c => acc * 10 + (c.toNat - 48)) 0

/-! ## GenerationCache: cache keys (`_get_cache_key`, `generate_whole_paper`) -/

/-- Pre-hash cache key string of `_get_cache_key`: the Python code builds
`f"{subject}_{topic}_{num}_{use_ca}_{months}"` and then md5-hashes it. -/
def cache_key_data (subject topic : String) (num : ℕ) (use_ca : Bool) (months : ℕ) : String :=
  subject ++ "_" ++ topic ++ "_" ++ pyStrNat num ++ "_" ++ pyStrBool use_ca ++ "_" ++ pyStrNat months

/-- Result of `_get_cache_key`, with the md5 digest abstracted as a function
parameter: the generator returns `md5(cache_key_data ...)`. -/
def get_cache_key (md5 : String → String) (subject topic : String) (num : ℕ)
    (use_ca : Bool) (months : ℕ) : String :=
  md5 (cache_key_data subject topic num use_ca months)

/-- Cache key built by `generate_whole_paper` (line 822):
`f"paper_{subject}_{topic}_{int(time.time())}"` — it embeds the wall-clock
time of the call. -/
def paper_cache_key (subject topic : String) (now : ℕ) : String :=
  "paper_" ++ subject ++ "_" ++ topic ++ "_" ++ pyStrNat now

/-- Subjects accepted by the HTTP layer (`models.py` restricts `subject` to
these four values). -/
def allowedSubjects : List String := ["GS1", "GS2", "GS3", "GS4"]

/-! ## PerformanceStore: `model_speeds`, `_load_model_performance`,
`_save_model_performance`, `_log_model_speed` -/

/-- The in-memory `model_speeds` dict: an insertion-ordered association list
from model name to the recorded latency samples (keys unique, as in a Python
dict). -/
abbrev SpeedsMap := List (String × List ℚ)

/-- Arithmetic mean `sum(xs) / len(xs)` (Python raises on an empty list; the
generator only averages non-empty histories). -/
def mean (xs : List ℚ) : ℚ := xs.sum / xs.length

/-- Python `self.model_speeds.setdefault(name, []).append(elapsed)`. -/
def logSpeedEntry (sp : SpeedsMap) (m : String) (e : ℚ) : SpeedsMap :=
  if sp.any (fun p => p.1 == m) then
    sp.map (fun p => if p.1 == m then (p.1, p.2 ++ [e]) else p)
  else
    sp ++ [(m, [e])]

/-- Row persisted by `_save_model_performance`: the upserted
`(avg_speed, num_runs)` aggregate for one model. -/
def save_model_performance (history : List ℚ) : ℚ × ℕ :=
  (mean history, history.length)

/-- One step of `_load_model_performance`: a persisted row is folded into the
`model_speeds` dict only when both `avg_speed` and `num_runs` are truthy
(Python skips rows where either is `0`/missing); a kept row reconstructs the
history as `[avg_speed] * num_runs`. -/
def loadPerformanceRow (sp : SpeedsMap) (name : String) (avg : ℚ) (runs : ℕ) : SpeedsMap :=
  if avg ≠ 0 ∧ runs ≠ 0 then sp ++ [(name, List.replicate runs avg)] else sp

/-- Full `_load_model_performance` over the persisted `model_performance`
rows, starting from the empty in-memory dict. -/
def load_model_performance (rows : List (String × ℚ × ℕ)) : SpeedsMap :=
  rows.foldl (fun sp r => loadPerformanceRow sp r.1 r.2.1 r.2.2) []

/-! ## ModelRouter: registry constants and `select_model` -/

/-- Static entry of the `available_models` registry. -/
structure ModelInfo where
  provider : String
  model_id : String
deriving DecidableEq

/-- The `available_models` registry literal from `QuestionGenerator.__init__`. -/
def available_models : List (String × ModelInfo) :=
  [ ("llama3-70b", ⟨"groq", "llama3-70b-8192"⟩),
    ("deepseek-r1", ⟨"groq", "deepseek-r1-distill-llama-70b"⟩),
    ("llama3-8b", ⟨"groq", "llama3-8b-8192"⟩),
    ("gemma2-9b", ⟨"groq", "gemma2-9b-it"⟩),
    ("openai-oss-20b", ⟨"groq", "openai/gpt-oss-20b"⟩),
    ("gemini-2.0-flash", ⟨"google", "models/gemini-2.0-flash"⟩),
    ("gemini-2.5-flash", ⟨"google", "gemini-2.5-flash"⟩),
    ("moonshot-k2", ⟨"groq", "moonshotai/kimi-k2-instruct"⟩) ]

/-- Python `name in self.available_models` (dict key membership). -/
def isRegistered (m : String) : Bool :=
  (available_models.map Prod.fst).contains m

/-- The `priority_order` list literal from `QuestionGenerator.__init__`. -/
def priority_order : List String :=
  ["gemma2-9b", "openai-oss-20b", "llama3-70b", "moonshot-k2",
   "gemini-2.5-flash", "gemini-2.0-flash", "deepseek-r1"]

/-- `self.min_attempts_for_avg`. -/
def min_attempts_for_avg : ℕ := 3

/-- Python truthiness of a string: non-empty. -/
def pyTruthyStr (s : String) : Bool := !(s == "")

/-- Python condition `all(len(times) >= self.min_attempts_for_avg for times in
self.model_speeds.values())`: it ranges over the models present in the dict,
not over the candidate list. -/
def allRecordedAtLeastMin (sp : SpeedsMap) : Bool :=
  sp.all (fun p => min_attempts_for_avg ≤ p.2.length)

/-- Python `sorted(xs, key=k)`: a stable ascending sort by key, modeled with
stable insertion sort. -/
def pySortedByKey {α β : Type} [LinearOrder β] (k : α → β) (xs : List α) : List α :=
  List.insertionSort (fun a b => k a ≤ k b) xs

/-- Sort key `sum(self.model_speeds.get(m, [float("inf")])) / len(...)`:
mean of the recorded samples, or `+inf` for a model with no entry. -/
def meanKeyDefaultTop (sp : SpeedsMap) (m : String) : WithTop ℚ :=
  match List.lookup m sp with
  | some ts => (mean ts : ℚ)
  | none => ⊤

/-- Fallback remainder `[m for m in self.priority_order if m != requested]`. -/
def staticFallback (r : String) : List String :=
  priority_order.filter (fun m => !(m == r))

/-- Requested-model branch of `select_model`: the requested model is forced
first and the fallback remainder is adaptively re-sorted only when
`allRecordedAtLeastMin` holds. -/
def selectRequested (sp : SpeedsMap) (r : String) : List String :=
  if allRecordedAtLeastMin sp then
    r :: pySortedByKey (meanKeyDefaultTop sp)
      ((staticFallback r).filter (fun m => isRegistered m))
  else
    r :: staticFallback r

/-- Auto-mode branch of `select_model`.  In adaptive auto mode the sort key is
`self.model_speeds[m]`, a direct dict access: a candidate with no recorded
entry raises `KeyError`, modeled as `.error ()`. -/
def selectAuto (sp : SpeedsMap) : Except Unit (List String) :=
  if allRecordedAtLeastMin sp then
    if (priority_order.filter (fun m => isRegistered m)).all
        (fun m => (List.lookup m sp).isSome) then
      .ok (pySortedByKey (fun m => mean ((List.lookup m sp).getD []))
        (priority_order.filter (fun m => isRegistered m)))
    else
      .error ()
  else
    .ok (priority_order.filter (fun m => isRegistered m))

instance {ε α : Type} [DecidableEq ε] [DecidableEq α] : DecidableEq (Except ε α) := fun a b =>
  match a, b with
  | .error e1, .error e2 =>
    if h : e1 = e2 then isTrue (by rw [h]) else isFalse (fun hc => h (by injection hc))
  | .ok v1, .ok v2 =>
    if h : v1 = v2 then isTrue (by rw [h]) else isFalse (fun hc => h (by injection hc))
  | .error _, .ok _ => isFalse (fun hc => Except.noConfusion hc)
  | .ok _, .error _ => isFalse (fun hc => Except.noConfusion hc)

/-- The `select_model` method.  The requested branch is taken only when the
requested name is truthy and registered. -/
def select_model (sp : SpeedsMap) (requested : Option String) : Except Unit (List String) :=
  match requested with
  | some r =>
    if pyTruthyStr r && isRegistered r then .ok (selectRequested sp r) else selectAuto sp
  | none => selectAuto sp

/-! ## ModelRouter: the `_try_models` attempt loop -/

/-- Python `round(q)` to the nearest integer, ties to even. -/
def pyRoundInt (q : ℚ) : ℤ :=
  if q - ⌊q⌋ = 1 / 2 then (if Even ⌊q⌋ then ⌊q⌋ else ⌊q⌋ + 1) else round q

/-- Python `round(q, 2)`. -/
def pyRound2 (q : ℚ) : ℚ := (pyRoundInt (q * 100) : ℚ) / 100

/-- Outcome the environment assigns to one model attempt: client construction
can fail (`unavailable`, skipped silently), and a real invocation either
raises with a message or returns output; `elapsed` is the wall-clock duration
of the attempt. -/
inductive AttemptOutcome where
  | unavailable
  | failure (err : String) (elapsed : ℚ)
  | success (output : String) (elapsed : ℚ)
deriving DecidableEq

/-- Per-model outcomes for one `_try_models` run. -/
abbrev AttemptEnv := String → AttemptOutcome

/-- Boolean test for a successful outcome. -/
def isSuccess : AttemptOutcome → Bool
  | .success _ _ => true
  | _ => false

/-- Result dict of `_try_models`. -/
structure TryResult where
  output : String
  model : String
  duration : ℚ
  avg_speed : ℚ
  runs : ℕ
  status : String
deriving DecidableEq

/-- Python f-string rendering of an `Optional[str]`: `None` renders as the
string `"None"`. -/
def pyStrOptNone : Option String → String
  | none => "None"
  | some s => s

/-- The terminal message `f"Error: All model attempts failed. Last error: {last_error}"`. -/
def allFailedMessage (lastError : Option String) : String :=
  "Error: All model attempts failed. Last error: " ++ pyStrOptNone lastError

/-- State update of `_log_model_speed` (append the elapsed time to the history
of the model) together with the read-back of the updated history; persisting
the aggregate only touches the durable store. -/
def afterLog (sp : SpeedsMap) (m : String) (e : ℚ) : SpeedsMap × List ℚ :=
  let sp2 := logSpeedEntry sp m e
  (sp2, (List.lookup m sp2).getD [])

/-- The candidate loop of `_try_models`, threading the `model_speeds` state
and the `last_error` variable. -/
def tryModelsGo (env : AttemptEnv) :
    List String → SpeedsMap → Option String → TryResult × SpeedsMap
  | [], sp, lastError =>
    ({ output := allFailedMessage lastError, model := "failed", duration := 0,
       avg_speed := 0, runs := 0, status := "all_failed" }, sp)
  | m :: rest, sp, lastError =>
    match env m with
    | .unavailable => tryModelsGo env rest sp lastError
    | .success out t =>
      let e := pyRound2 t
      let logged := afterLog sp m e
      ({ output := out, model := m, duration := e,
         avg_speed := pyRound2 (mean logged.2), runs := logged.2.length,
         status := "success" }, logged.1)
    | .failure err t =>
      let e := pyRound2 t
      let logged := afterLog sp m e
      tryModelsGo env rest logged.1 (some err)

/-- `_try_models(models, prompt)`: the prompt only reaches the provider
clients, so the environment already accounts for it. -/
def try_models (env : AttemptEnv) (sp : SpeedsMap) (models : List String) :
    TryResult × SpeedsMap :=
  tryModelsGo env models sp none

/-- Final value of the `last_error` variable after the loop, starting from a
given value. -/
def lastErrAfter (env : AttemptEnv) : List String → Option String → Option String
  | [], le => le
  | m :: rest, le =>
    match env m with
    | .failure err _ => lastErrAfter env rest (some err)
    | _ => lastErrAfter env rest le

/-- Last invocation error of a run that starts with no recorded error. -/
def lastFailureErr (env : AttemptEnv) (models : List String) : Option String :=
  lastErrAfter env models none

/-! ## DocumentRetriever: `_get_relevant_documents_with_fallback` and
`_get_documents_current_method` -/

/-- Row of the `documents` table: content plus the `metadata->>topic` tag. -/
structure DocRow where
  content : String
  topic : String
deriving DecidableEq

/-- Environment of one retrieval call: configured clients, the outcome of the
vector similarity search (`none` = it raised), whether the direct table query
raises, and the `documents` table contents. -/
structure RetrievalEnv where
  hasVectorstore : Bool
  vectorSearch : Option (List String)
  hasSupabase : Bool
  scanRaises : Bool
  documentsTable : List DocRow

/-- `_get_documents_current_method`: a direct equality-filtered select bounded
to `k` rows; every failure path returns `[]`. -/
def get_documents_current_method (env : RetrievalEnv) (topic : String) (k : ℕ) : List String :=
  if !env.hasSupabase then []
  else if env.scanRaises then []
  else if ((env.documentsTable.filter (fun r => r.topic == topic)).take k).isEmpty then []
  else ((env.documentsTable.filter (fun r => r.topic == topic)).take k).map DocRow.content

/-- `_get_relevant_documents_with_fallback`: vector similarity search first,
direct query on any failure. -/
def get_relevant_documents_with_fallback (env : RetrievalEnv) (topic query : String) (k : ℕ) : List String :=
  if !env.hasVectorstore then get_documents_current_method env topic k
  else
    match env.vectorSearch with
    | some docs => docs
    | none => get_documents_current_method env topic k

/-! ## GenerationCache: `_get_cached_questions_as_examples` -/

/-- Row of the `topic_questions_index` table, with timestamps as rationals. -/
structure TopicIndexRow where
  subject : String
  topic : String
  question_text : String
  created_at : ℚ
  expires_at : ℚ
deriving DecidableEq

/-- The Supabase query issued by `_get_cached_questions_as_examples`: equality
filters on subject and topic, `expires_at > now`, newest first, limited to
`max_examples * 2` rows. -/
def topicIndexQuery (table : List TopicIndexRow) (subject topic : String)
    (now : ℚ) (maxExamples : ℕ) : List TopicIndexRow :=
  (pySortedByKey (fun r => -r.created_at)
    (table.filter
      (fun r => r.subject == subject && r.topic == topic && decide (now < r.expires_at)))).take
    (maxExamples * 2)

/-- Numbered example string `f"{i}. {question}"`. -/
def numberedExample (i : ℕ) (q : String) : String := pyStrNat i ++ ". " ++ q

/-- The `questions` list of `_get_cached_questions_as_examples`: truthy
`question_text` fields of the queried rows. -/
def sampledQuestionPool (table : List TopicIndexRow) (subject topic : String)
    (now : ℚ) (maxExamples : ℕ) : List String :=
  ((topicIndexQuery table subject topic now maxExamples).map
    TopicIndexRow.question_text).filter (fun q => pyTruthyStr q)

/-- `_get_cached_questions_as_examples`, with `random.sample` supplied as the
function `sample` and the query failure path as `queryRaises`. -/
def get_cached_questions_as_examples (sample : List String → ℕ → List String)
    (hasSupabase queryRaises : Bool) (table : List TopicIndexRow)
    (subject topic : String) (maxExamples : ℕ) (now : ℚ) : List String :=
  if !hasSupabase then []
  else if queryRaises then []
  else if (topicIndexQuery table subject topic now maxExamples).isEmpty then []
  else if (sampledQuestionPool table subject topic now maxExamples).isEmpty then []
  else
    (List.enumFrom 1 (sample (sampledQuestionPool table subject topic now maxExamples)
      (min (sampledQuestionPool table subject topic now maxExamples).length
        maxExamples))).map
      (fun p => numberedExample p.1 p.2)

/-! ## OutputParser: string primitives -/

/-- Whitespace characters recognized by Python `str.strip()` (ASCII range). -/
def isPySpace (c : Char) : Bool :=
  c = ' ' || c = '\t' || c = '\n' || c = '\x0d' || c = '\x0c' || c = '\x0b'

/-- Python `str.strip()` on a character list. -/
def pyStripChars (cs : List Char) : List Char :=
  ((cs.dropWhile isPySpace).reverse.dropWhile isPySpace).reverse

/-- Python `str.strip()`. -/
def pyStrip (s : String) : String := ⟨pyStripChars s.data⟩

/-- Split at the first occurrence of `pat`: `some (pre, suf)` where the input
is `pre ++ pat ++ suf` and `pat` does not start inside `pre`. -/
def splitFirst (pat : List Char) : List Char → Option (List Char × List Char)
  | [] => if pat.isEmpty then some ([], []) else none
  | c :: cs =>
    if pat.isPrefixOf (c :: cs) then some ([], (c :: cs).drop pat.length)
    else
      match splitFirst pat cs with
      | some (pre, suf) => some (c :: pre, suf)
      | none => none

/-- Substring test, as `re.search` of a literal alternation branch. -/
def containsSub (cs pat : List Char) : Bool := (splitFirst pat cs).isSome

/-- Python `str.lower()` (ASCII). -/
def toLowerChars (cs : List Char) : List Char := cs.map Char.toLower

/-- Python `s.split(sep)` for a literal separator: every occurrence splits,
empty pieces are kept. -/
def splitOnSub (sep : List Char) : ℕ → List Char → List (List Char)
  | 0, cs => [cs]
  | fuel + 1, cs =>
    match splitFirst sep cs with
    | none => [cs]
    | some (pre, suf) => pre :: splitOnSub sep fuel suf

/-- Removal of `<think>...</think>` spans as `re.sub(r"<think>.*?</think>", "",
output, flags=DOTALL)`: each match runs from a `<think>` to the nearest
following `</think>`; an opening tag without a closing tag matches nothing. -/
def removeThinkChars : ℕ → List Char → List Char
  | 0, cs => cs
  | fuel + 1, cs =>
    match splitFirst "<think>".data cs with
    | none => cs
    | some (pre, afterOpen) =>
      match splitFirst "</think>".data afterOpen with
      | none => cs
      | some (_, afterClose) => pre ++ removeThinkChars fuel afterClose

/-! ## OutputParser: `format_questions` -/

/-- Alternation branches of the skip regex: note, instruction, thinking,
reasoning, let\x27s (with a literal apostrophe), alright. -/
def stopWords : List (List Char) :=
  ["note".data, "instruction".data, "thinking".data, "reasoning".data,
   "let\x27s".data, "alright".data]

/-- Directive-verb alternatives of the keep regex `^(Discuss|...)`. -/
def directiveWords : List (List Char) :=
  ["Discuss".data, "Explain".data, "Analyze".data, "Evaluate".data,
   "Critically".data, "Examine".data, "Comment".data, "Elucidate".data,
   "Illustrate".data, "Describe".data, "Assess".data, "Justify".data,
   "Outline".data, "Compare".data, "Contrast".data, "What".data, "Why".data,
   "How".data, "To what extent".data]

/-- Skip condition of `format_questions`: blank line, or a stop word occurs in
the lowercased line. -/
def skipLine (line : List Char) : Bool :=
  line.isEmpty || stopWords.any (fun w => containsSub (toLowerChars line) w)

/-- Keep condition of `format_questions`: ends with `?` or starts with a
directive verb. -/
def keepLine (line : List Char) : Bool :=
  (line.getLast? == some '?') || directiveWords.any (fun w => w.isPrefixOf line)

/-- Numbering loop of `format_questions`. -/
def formatGo : List (List Char) → ℕ → List String
  | [], _ => []
  | p :: rest, n =>
    let line := pyStripChars p
    if skipLine line then formatGo rest n
    else if keepLine line then numberedExample n ⟨line⟩ :: formatGo rest (n + 1)
    else formatGo rest n

/-- `format_questions`: the regex fallback cleaner over blank-line-separated
paragraphs. -/
def formatQuestionsChars (raw : List Char) : List String :=
  formatGo (splitOnSub "\n\n".data (raw.length + 1) (pyStripChars raw)) 1

/-- String-level wrapper of `format_questions`. -/
def format_questions (raw : String) : List String := formatQuestionsChars raw.data

/-! ## OutputParser: `json.loads` -/

/-- JSON values produced by `json.loads`; numbers are exact rationals. -/
inductive JVal where
  | jnull
  | jbool (b : Bool)
  | jnum (q : ℚ)
  | jstr (s : List Char)
  | jarr (xs : List JVal)
  | jobj (fields : List (List Char × JVal))

/-- JSON insignificant whitespace. -/
def skipJsonWs (cs : List Char) : List Char :=
  cs.dropWhile (fun c => c = ' ' || c = '\t' || c = '\n' || c = '\x0d')

/-- Hexadecimal digit value. -/
def parseHexDigit (c : Char) : Option ℕ :=
  if '0' ≤ c ∧ c ≤ '9' then some (c.toNat - 48)
  else if 'a' ≤ c ∧ c ≤ 'f' then some (c.toNat - 87)
  else if 'A' ≤ c ∧ c ≤ 'F' then some (c.toNat - 55)
  else none

/-- Decimal digit test. -/
def isDigitChar (c : Char) : Bool := '0' ≤ c && c ≤ '9'

/-- Body of a JSON string after the opening quote; handles the JSON escapes
and rejects raw control characters, as `json.loads` does in strict mode.
Lone `\u` escapes are mapped through `Char.ofNat`. -/
def parseJsonStringBody : ℕ → List Char → Option (List Char × List Char)
  | 0, _ => none
  | fuel + 1, cs =>
    match cs with
    | [] => none
    | '"' :: rest => some ([], rest)
    | '\\' :: e :: rest =>
      let cont := fun (c : Char) (r : List Char) =>
        (parseJsonStringBody fuel r).map (fun t => (c :: t.1, t.2))
      match e with
      | '"' => cont '"' rest
      | '\\' => cont '\\' rest
      | '/' => cont '/' rest
      | 'b' => cont '\x08' rest
      | 'f' => cont '\x0c' rest
      | 'n' => cont '\n' rest
      | 'r' => cont '\x0d' rest
      | 't' => cont '\t' rest
      | 'u' =>
        match rest with
        | h1 :: h2 :: h3 :: h4 :: rest2 =>
          match parseHexDigit h1, parseHexDigit h2, parseHexDigit h3, parseHexDigit h4 with
          | some a, some b, some c, some d =>
            cont (Char.ofNat (a * 4096 + b * 256 + c * 16 + d)) rest2
          | _, _, _, _ => none
        | _ => none
      | _ => none
    | c :: rest =>
      if c.toNat < 32 then none
      else (parseJsonStringBody fuel rest).map (fun t => (c :: t.1, t.2))

/-- Greedy run of decimal digits with accumulator and digit count. -/
def parseDigitsGo : List Char → ℕ → ℕ → ℕ × ℕ × List Char
  | [], acc, cnt => (acc, cnt, [])
  | c :: rest, acc, cnt =>
    if isDigitChar c then parseDigitsGo rest (acc * 10 + (c.toNat - 48)) (cnt + 1)
    else (acc, cnt, c :: rest)

/-- Sign application. -/
def applySign (neg : Bool) (q : ℚ) : ℚ := if neg then -q else q

/-- Exponent part of a JSON number, after `e`/`E`. -/
def parseExpDigits (base : ℚ) (cs : List Char) : Option (ℚ × List Char) :=
  let s := match cs with
    | '+' :: r => (false, r)
    | '-' :: r => (true, r)
    | _ => (false, cs)
  match s.2 with
  | c :: r =>
    if isDigitChar c then
      let t := parseDigitsGo r (c.toNat - 48) 1
      some (if s.1 then base / (10 : ℚ) ^ t.1 else base * (10 : ℚ) ^ t.1, t.2.2)
    else none
  | [] => none

/-- Optional exponent of a JSON number. -/
def parseExpPart (neg : Bool) (mant scale : ℕ) (cs : List Char) : Option (ℚ × List Char) :=
  let base : ℚ := applySign neg ((mant : ℚ) / (10 : ℚ) ^ scale)
  match cs with
  | 'e' :: r => parseExpDigits base r
  | 'E' :: r => parseExpDigits base r
  | _ => some (base, cs)

/-- Optional fraction of a JSON number (at least one digit after the dot). -/
def parseFracPart (neg : Bool) (ip : ℕ) (cs : List Char) : Option (ℚ × List Char) :=
  match cs with
  | '.' :: r =>
    match r with
    | c :: r2 =>
      if isDigitChar c then
        let t := parseDigitsGo r2 (c.toNat - 48) 1
        parseExpPart neg (ip * 10 ^ t.2.1 + t.1) t.2.1 t.2.2
      else none
    | [] => none
  | _ => parseExpPart neg ip 0 cs

/-- JSON number: optional minus, integer part without leading zeros, optional
fraction and exponent. -/
def parseJsonNumber (cs : List Char) : Option (ℚ × List Char) :=
  let s := match cs with
    | '-' :: r => (true, r)
    | _ => (false, cs)
  match s.2 with
  | '0' :: r => parseFracPart s.1 0 r
  | c :: r =>
    if isDigitChar c then
      let t := parseDigitsGo r (c.toNat - 48) 1
      parseFracPart s.1 t.1 t.2.2
    else none
  | [] => none

mutual

/-- One JSON value with leading whitespace skipped; `fuel` bounds the
recursion and `2 * length + 4` always suffices. -/
def parseJVal : ℕ → List Char → Option (JVal × List Char)
  | 0, _ => none
  | fuel + 1, cs0 =>
    let cs := skipJsonWs cs0
    match cs with
    | [] => none
    | '{' :: r =>
      match skipJsonWs r with
      | '}' :: r2 => some (.jobj [], r2)
      | _ => (parseObjRest fuel r).map (fun t => (JVal.jobj t.1, t.2))
    | '[' :: r =>
      match skipJsonWs r with
      | ']' :: r2 => some (.jarr [], r2)
      | _ => (parseArrRest fuel r).map (fun t => (JVal.jarr t.1, t.2))
    | '"' :: r => (parseJsonStringBody (r.length + 1) r).map (fun t => (JVal.jstr t.1, t.2))
    | 't' :: _ => if "true".data.isPrefixOf cs then some (.jbool true, cs.drop 4) else none
    | 'f' :: _ => if "false".data.isPrefixOf cs then some (.jbool false, cs.drop 5) else none
    | 'n' :: _ => if "null".data.isPrefixOf cs then some (.jnull, cs.drop 4) else none
    | _ => (parseJsonNumber cs).map (fun t => (JVal.jnum t.1, t.2))

/-- Non-empty comma-separated array items, then `]`. -/
def parseArrRest : ℕ → List Char → Option (List JVal × List Char)
  | 0, _ => none
  | fuel + 1, cs =>
    match parseJVal fuel cs with
    | none => none
    | some (v, rest) =>
      match skipJsonWs rest with
      | ']' :: r => some ([v], r)
      | ',' :: r =>
        match parseArrRest fuel r with
        | some (vs, r2) => some (v :: vs, r2)
        | none => none
      | _ => none

/-- Non-empty comma-separated object members, then `}`. -/
def parseObjRest : ℕ → List Char → Option (List (List Char × JVal) × List Char)
  | 0, _ => none
  | fuel + 1, cs =>
    match skipJsonWs cs with
    | '"' :: r =>
      match parseJsonStringBody (r.length + 1) r with
      | none => none
      | some (key, rest) =>
        match skipJsonWs rest with
        | ':' :: r2 =>
          match parseJVal fuel r2 with
          | none => none
          | some (v, rest2) =>
            match skipJsonWs rest2 with
            | '}' :: r3 => some ([(key, v)], r3)
            | ',' :: r3 =>
              match parseObjRest fuel r3 with
              | some (fs, r4) => some ((key, v) :: fs, r4)
              | none => none
            | _ => none
        | _ => none
    | _ => none

end

/-- Python `json.loads` on a character list: one JSON value, then only
whitespace. -/
def jsonLoadsChars (cs : List Char) : Option JVal :=
  match parseJVal (2 * cs.length + 4) cs with
  | some (v, rest) => if (skipJsonWs rest).isEmpty then some v else none
  | none => none

/-- Python `json.loads`. -/
def json_loads (s : String) : Option JVal := jsonLoadsChars s.data

/-! ## OutputParser: `safe_parse_questions` -/

/-- One parsed question dict. -/
structure Question where
  thinking : String
  question : String
deriving DecidableEq

/-- Key lookup in a parsed JSON object: Python dict construction keeps the
last occurrence of a duplicated key. -/
def objGet (fields : List (List Char × JVal)) (k : List Char) : Option JVal :=
  ((fields.filter (fun f => f.1 == k)).getLast?).map Prod.snd

/-- Processing of one array element in the JSON stages.  `none` models the
`AttributeError` raised by `.strip()` on a non-string `question`/`thinking`
value, which aborts the whole stage; `some none` is an element that is
silently skipped (dict without a `question` key, number, nested list, ...). -/
def questionOfItem : JVal → Option (Option Question)
  | .jobj fields =>
    match objGet fields "question".data with
    | some (.jstr qs) =>
      match objGet fields "thinking".data with
      | none => some (some ⟨"", ⟨pyStripChars qs⟩⟩)
      | some (.jstr ts) => some (some ⟨⟨pyStripChars ts⟩, ⟨pyStripChars qs⟩⟩)
      | some _ => none
    | some _ => none
    | none => some none
  | .jstr s => some (some ⟨"", ⟨pyStripChars s⟩⟩)
  | _ => some none

/-- The results-building loop shared by the two JSON stages. -/
def processItems : List JVal → Option (List Question)
  | [] => some []
  | v :: vs =>
    match questionOfItem v with
    | none => none
    | some none => processItems vs
    | some (some q) => (processItems vs).map (fun qs => q :: qs)

/-- Python `xs[:num] if num else xs`: both `None` and `0` keep the whole
list. -/
def pyTrimOpt {α : Type} (num : Option ℕ) (xs : List α) : List α :=
  match num with
  | some n => if n = 0 then xs else xs.take n
  | none => xs

/-- Shared body of parse stages 2 and 3: a parsed JSON list yields its
results only when they are non-empty; every other case falls through. -/
def jsonStage (num : Option ℕ) (v : JVal) : Option (List Question) :=
  match v with
  | .jarr xs =>
    match processItems (pyTrimOpt num xs) with
    | some results => if results.isEmpty then none else some results
    | none => none
  | _ => none

/-- First match of the regex `\[[\s\S]*\]`: from the first `[` through the
last `]`, when that `]` comes later. -/
def extractBracketSpan (cs : List Char) : Option (List Char) :=
  let fromFirst := cs.dropWhile (fun c => !(c = '['))
  match fromFirst with
  | [] => none
  | _ =>
    let upToLast := (fromFirst.reverse.dropWhile (fun c => !(c = ']'))).reverse
    if upToLast.isEmpty then none else some upToLast

/-- Final fallback paragraphs: blank-line-separated pieces whose stripped
length exceeds 10. -/
def fallbackParagraphs (cleaned : List Char) : List (List Char) :=
  ((splitOnSub "\n\n".data (cleaned.length + 1) cleaned).map pyStripChars).filter
    (fun p => 10 < p.length)

/-- Line 614: `cleaned = re.sub(r"<think>.*?</think>", "", output,
flags=re.DOTALL).strip()`. -/
def cleanedOutput (output : String) : List Char :=
  pyStripChars (removeThinkChars (output.data.length + 1) output.data)

/-- `safe_parse_questions(output, num)`: strip think blocks, then try direct
JSON, embedded JSON, the regex cleaner, and the paragraph fallback. -/
def safe_parse_questions (output : String) (num : Option ℕ) : List Question :=
  match (jsonLoadsChars (cleanedOutput output)).bind (jsonStage num) with
  | some r => r
  | none =>
    match (extractBracketSpan (cleanedOutput output)).bind
        (fun span => (jsonLoadsChars span).bind (jsonStage num)) with
    | some r => r
    | none =>
      if !(formatQuestionsChars (cleanedOutput output)).isEmpty then
        (pyTrimOpt num (formatQuestionsChars (cleanedOutput output))).map
          (fun q => ⟨"", q⟩)
      else
        (List.enumFrom 1 (pyTrimOpt num (fallbackParagraphs (cleanedOutput output)))).map
          (fun p => ⟨"", numberedExample p.1 ⟨p.2⟩⟩)

/-! ## Sampler (modelled from the spec) -/

/-- Modelled from the spec: the repository contains no stratified sampler —
`_generate_static_questions` only concatenates retrieved documents and cached
examples — so the `Document` of the spec data model (§3) is reproduced here;
the embedding vector plays no role in sampling and is omitted. -/
structure Document where
  content : String
  topicTag : String
deriving DecidableEq

/-- Modelled from the spec: `allocation[stratum] = round(|stratum|/|all| * n)`
computed exactly on naturals, rounding half up. -/
def strataAllocation (size total n : ℕ) : ℕ := (2 * size * n + total) / (2 * total)

/-- Distinct topic tags in first-occurrence order. -/
def strataTags (docs : List Document) : List String := (docs.map Document.topicTag).dedup

/-- The stratum of a topic tag. -/
def stratum (docs : List Document) (t : String) : List Document :=
  docs.filter (fun d => d.topicTag == t)

/-- Modelled from the spec: per-stratum draws of `round(|stratum|/|all| * n)`
documents without replacement; the random draw is modeled as taking the
stratum in stored order, which the claimed cardinality and membership
properties do not depend on. -/
def strataDraw (docs : List Document) (n : ℕ) : List Document :=
  (strataTags docs).flatMap
    (fun t => (stratum docs t).take (strataAllocation (stratum docs t).length docs.length n))

/-- Modelled from the spec: `sample(documents, n)` (§4 Sampler) — all
documents when `|documents| ≤ n`, otherwise the per-stratum draws, topped up
from not-yet-chosen documents when rounding under-allocates. -/
def sample (docs : List Document) (n : ℕ) : List Document :=
  if docs.length ≤ n then docs
  else
    let chosen := strataDraw docs n
    if chosen.length < n then
      chosen ++ (docs.filter (fun d => !(chosen.contains d))).take (n - chosen.length)
    else chosen

/-! ## Decimal rendering lemmas -/

theorem digitChar_toNat : ∀ d, d < 10 → (Nat.digitChar d).toNat = 48 + d := by
  decide

theorem digitChar_ne_underscore : ∀ d, d < 10 → Nat.digitChar d ≠ '_' := by
  decide

theorem decodeDigits_append (cs : List Char) (c : Char) :
    decodeDigits (cs ++ [c]) = decodeDigits cs * 10 + (c.toNat - 48) := by
  simp [decodeDigits, List.foldl_append]

theorem decodeDigits_natChars : ∀ f n, n < f → decodeDigits (natChars f n) = n := by
  intro f
  induction f with
  | zero => intro n hn; omega
  | succ f ih =>
    intro n hn
    by_cases h : n < 10
    · simp only [natChars, if_pos h, decodeDigits, List.foldl_cons, List.foldl_nil]
      rw [digitChar_toNat n h]
      omega
    · have h10 : 10 ≤ n := le_of_not_lt h
      have hdivlt : n / 10 < n := Nat.div_lt_self (by omega) (by omega)
      have : n / 10 < f := by omega
      simp only [natChars, if_neg h]
      rw [decodeDigits_append, ih (n / 10) this, digitChar_toNat (n % 10) (Nat.mod_lt n (by omega))]
      omega

theorem pyStrNat_injective {n m : ℕ} (h : pyStrNat n = pyStrNat m) : n = m := by
  have hdata : natChars (n + 1) n = natChars (m + 1) m := congrArg String.data h
  have hn := decodeDigits_natChars (n + 1) n (Nat.lt_succ_self n)
  have hm := decodeDigits_natChars (m + 1) m (Nat.lt_succ_self m)
  rw [← hn, ← hm, hdata]

theorem underscore_not_mem_natChars : ∀ f n, '_' ∉ natChars f n := by
  intro f
  induction f with
  | zero => intro n; simp [natChars]
  | succ f ih =>
    intro n
    by_cases h : n < 10
    · simp only [natChars, if_pos h, List.mem_singleton]
      exact fun hc => digitChar_ne_underscore n h hc.symm
    · simp only [natChars, if_neg h, List.mem_append, List.mem_singleton]
      rintro (hc | hc)
      · exact ih (n / 10) hc
      · exact digitChar_ne_underscore (n % 10) (Nat.mod_lt n (by omega)) hc.symm

theorem underscore_not_mem_pyStrNat (n : ℕ) : '_' ∉ (pyStrNat n).data :=
  underscore_not_mem_natChars (n + 1) n

theorem underscore_not_mem_pyStrBool (b : Bool) : '_' ∉ (pyStrBool b).data := by
  cases b <;> decide

theorem pyStrBool_injective {a b : Bool} (h : pyStrBool a = pyStrBool b) : a = b := by
  cases a <;> cases b <;> simp_all [pyStrBool]

/-! ## C3: cache keys -/

theorem underscore_split {a b x y : List Char} (ha : '_' ∉ a) (hb : '_' ∉ b)
    (h : a ++ '_' :: x = b ++ '_' :: y) : a = b ∧ x = y := by
  induction a generalizing b with
  | nil =>
    cases b with
    | nil => simpa using h
    | cons d bs =>
      simp only [List.nil_append, List.cons_append, List.cons.injEq] at h
      exact absurd (h.1 ▸ List.mem_cons_self d bs) hb
  | cons c as ih =>
    cases b with
    | nil =>
      simp only [List.nil_append, List.cons_append, List.cons.injEq] at h
      exact absurd (h.1 ▸ List.mem_cons_self c as) ha
    | cons d bs =>
      simp only [List.cons_append, List.cons.injEq] at h
      have ha2 : '_' ∉ as := fun hm => ha (List.mem_cons_of_mem c hm)
      have hb2 : '_' ∉ bs := fun hm => hb (List.mem_cons_of_mem d hm)
      obtain ⟨h1, h2⟩ := ih ha2 hb2 h.2
      exact ⟨by rw [h.1, h1], h2⟩

theorem cache_key_data_data (s t : String) (n : ℕ) (c : Bool) (m : ℕ) :
    (cache_key_data s t n c m).data =
      s.data ++ '_' :: (t.data ++ '_' :: ((pyStrNat n).data ++ '_' ::
        ((pyStrBool c).data ++ '_' :: (pyStrNat m).data))) := by
  simp [cache_key_data, String.data_append]

theorem string_data_injective {s t : String} (h : s.data = t.data) : s = t :=
  String.ext h

theorem cache_key_data_injective_on_valid
    {s₁ t₁ s₂ t₂ : String} {n₁ m₁ n₂ m₂ : ℕ} {c₁ c₂ : Bool}
    (hs₁ : '_' ∉ s₁.data) (hs₂ : '_' ∉ s₂.data)
    (h : cache_key_data s₁ t₁ n₁ c₁ m₁ = cache_key_data s₂ t₂ n₂ c₂ m₂) :
    s₁ = s₂ ∧ t₁ = t₂ ∧ n₁ = n₂ ∧ c₁ = c₂ ∧ m₁ = m₂ := by
  have hd := congrArg String.data h
  rw [cache_key_data_data, cache_key_data_data] at hd
  obtain ⟨hsubj, hrest⟩ := underscore_split hs₁ hs₂ hd
  -- peel the remaining fields from the right: reverse the tails
  have hrev := congrArg List.reverse hrest
  simp only [List.reverse_append, List.reverse_cons] at hrev
  -- now the reversed months string is the head segment
  have hrev2 : (pyStrNat m₁).data.reverse ++ '_' ::
      (((pyStrBool c₁).data.reverse ++ ['_']) ++
        (((pyStrNat n₁).data.reverse ++ ['_']) ++ (t₁.data.reverse))) =
      (pyStrNat m₂).data.reverse ++ '_' ::
      (((pyStrBool c₂).data.reverse ++ ['_']) ++
        (((pyStrNat n₂).data.reverse ++ ['_']) ++ (t₂.data.reverse))) := by
    simpa [List.append_assoc] using hrev
  have hm_nu₁ : '_' ∉ (pyStrNat m₁).data.reverse := by
    simpa using underscore_not_mem_pyStrNat m₁
  have hm_nu₂ : '_' ∉ (pyStrNat m₂).data.reverse := by
    simpa using underscore_not_mem_pyStrNat m₂
  obtain ⟨hmths, hrest2⟩ := underscore_split hm_nu₁ hm_nu₂ hrev2
  have hc_nu₁ : '_' ∉ (pyStrBool c₁).data.reverse := by
    simpa using underscore_not_mem_pyStrBool c₁
  have hc_nu₂ : '_' ∉ (pyStrBool c₂).data.reverse := by
    simpa using underscore_not_mem_pyStrBool c₂
  have hrest2b : (pyStrBool c₁).data.reverse ++ '_' ::
      (((pyStrNat n₁).data.reverse ++ ['_']) ++ t₁.data.reverse) =
      (pyStrBool c₂).data.reverse ++ '_' ::
      (((pyStrNat n₂).data.reverse ++ ['_']) ++ t₂.data.reverse) := by
    simpa [List.append_assoc] using hrest2
  obtain ⟨hca, hrest3⟩ := underscore_split hc_nu₁ hc_nu₂ hrest2b
  have hn_nu₁ : '_' ∉ (pyStrNat n₁).data.reverse := by
    simpa using underscore_not_mem_pyStrNat n₁
  have hn_nu₂ : '_' ∉ (pyStrNat n₂).data.reverse := by
    simpa using underscore_not_mem_pyStrNat n₂
  have hrest3b : (pyStrNat n₁).data.reverse ++ '_' :: t₁.data.reverse =
      (pyStrNat n₂).data.reverse ++ '_' :: t₂.data.reverse := by
    simpa [List.append_assoc] using hrest3
  obtain ⟨hnum, htop⟩ := underscore_split hn_nu₁ hn_nu₂ hrest3b
  refine ⟨string_data_injective hsubj, ?_, ?_, ?_, ?_⟩
  · exact string_data_injective (List.reverse_injective htop)
  · exact pyStrNat_injective (string_data_injective (List.reverse_injective hnum))
  · exact pyStrBool_injective (string_data_injective (List.reverse_injective hca))
  · exact pyStrNat_injective (string_data_injective (List.reverse_injective hmths))

/-- C3 (counterexample): the claim also covers the whole-paper flow
(`generate_whole_paper`, lines 813-823), whose cache key embeds
`int(time.time())`: two calls with identical (subject, topic, num,
useCurrentAffairs, monthsWindow) made at different wall-clock seconds get
different keys, so the key is not a function of the input tuple alone. -/
theorem paper_cache_key_not_deterministic_in_tuple :
    paper_cache_key "GS1" "Polity" 0 ≠ paper_cache_key "GS1" "Polity" 1 := by
  decide

/-- C3 (amended): `_get_cache_key` is deterministic in the tuple, and for
valid subjects (the HTTP layer accepts only GS1-GS4) two differing tuples
always produce differing md5 *inputs* — full collision resistance of the key
itself additionally assumes md5 is collision-free. -/
theorem cache_key_deterministic_and_collision_resistant
    (s₁ t₁ s₂ t₂ : String) (n₁ m₁ n₂ m₂ : ℕ) (c₁ c₂ : Bool)
    (hs₁ : s₁ ∈ allowedSubjects) (hs₂ : s₂ ∈ allowedSubjects)
    (h : cache_key_data s₁ t₁ n₁ c₁ m₁ = cache_key_data s₂ t₂ n₂ c₂ m₂) :
    (∀ md5 : String → String,
      get_cache_key md5 s₁ t₁ n₁ c₁ m₁ = get_cache_key md5 s₂ t₂ n₂ c₂ m₂) ∧
    (s₁ = s₂ ∧ t₁ = t₂ ∧ n₁ = n₂ ∧ c₁ = c₂ ∧ m₁ = m₂) := by
  have hnu : ∀ s : String, s ∈ allowedSubjects → '_' ∉ s.data := by
    intro s hs
    fin_cases hs <;> decide
  exact ⟨fun md5 => congrArg md5 h,
    cache_key_data_injective_on_valid (hnu s₁ hs₁) (hnu s₂ hs₂) h⟩

/-- C3 (witness): the amended theorem applied at a concrete valid tuple. -/
theorem cache_key_deterministic_and_collision_resistant_witness :
    "GS1" ∈ allowedSubjects ∧
    ("GS1" = "GS1" ∧ "Polity" = "Polity" ∧ 3 = 3 ∧ false = false ∧ 6 = 6) :=
  ⟨by decide,
    (cache_key_deterministic_and_collision_resistant "GS1" "Polity" "GS1" "Polity"
      3 6 3 6 false false (by decide) (by decide) rfl).2⟩

/-! ## C7, C10, C4: `select_model` -/

theorem priority_all_registered : ∀ m ∈ priority_order, isRegistered m = true := by
  decide

theorem registered_truthy {r : String} (h : isRegistered r = true) :
    pyTruthyStr r = true := by
  have hmem : r ∈ available_models.map Prod.fst := by
    simpa [isRegistered] using h
  simp only [available_models, List.map, List.mem_cons, List.not_mem_nil, or_false] at hmem
  rcases hmem with h | h | h | h | h | h | h | h <;> subst h <;> decide

theorem mem_staticFallback {r m : String} (h : m ∈ staticFallback r) :
    m ∈ priority_order := by
  exact (List.mem_filter.mp h).1

/-- C10: a requested model name that is not in `available_models` is silently
ignored: `select_model` behaves exactly as with no requested model, and no
error is signalled. -/
theorem select_model_unregistered_like_none (sp : SpeedsMap) (r : String)
    (h : isRegistered r = false) :
    select_model sp (some r) = select_model sp none := by
  simp [select_model, h]

/-- C10 (witness): a concrete unregistered name. -/
theorem select_model_unregistered_like_none_witness :
    isRegistered "gpt-4" = false ∧
    select_model [] (some "gpt-4") = select_model [] none :=
  ⟨by decide, select_model_unregistered_like_none [] "gpt-4" (by decide)⟩

/-- C7: a registered requested model is always placed first, and every name
`select_model` ever returns is registered. -/
theorem select_model_requested_first_and_all_registered
    (sp : SpeedsMap) (req : Option String) :
    (∀ r, req = some r → isRegistered r = true →
      ∃ l, select_model sp req = .ok l ∧ l.head? = some r) ∧
    (∀ l, select_model sp req = .ok l → ∀ m ∈ l, isRegistered m = true) := by
  constructor
  · rintro r rfl hreg
    refine ⟨selectRequested sp r, ?_, ?_⟩
    · simp [select_model, hreg, registered_truthy hreg]
    · unfold selectRequested
      by_cases hall : allRecordedAtLeastMin sp <;> simp [hall]
  · intro l hl m hm
    have auto_ok : ∀ l₂, selectAuto sp = .ok l₂ → ∀ m₂ ∈ l₂, isRegistered m₂ = true := by
      intro l₂ hl₂ m₂ hm₂
      unfold selectAuto at hl₂
      split at hl₂
      · split at hl₂
        · injection hl₂ with h
          subst h
          have : m₂ ∈ priority_order.filter (fun m => isRegistered m) :=
            ((List.perm_insertionSort _ _).mem_iff).mp hm₂
          exact (List.mem_filter.mp this).2
        · exact Except.noConfusion hl₂
      · injection hl₂ with h
        subst h
        exact (List.mem_filter.mp hm₂).2
    match req with
    | none => exact auto_ok l hl m hm
    | some r =>
      by_cases hcond : (pyTruthyStr r && isRegistered r) = true
      · have hcond2 : pyTruthyStr r = true ∧ isRegistered r = true := by
          simpa using hcond
        simp only [select_model, hcond, if_true, Except.ok.injEq] at hl
        subst hl
        simp only [selectRequested] at hm
        split at hm
        · rcases List.mem_cons.mp hm with rfl | htail
          · exact hcond2.2
          · have h2 : m ∈ (staticFallback r).filter (fun x => isRegistered x) :=
              ((List.perm_insertionSort _ _).mem_iff).mp htail
            exact (List.mem_filter.mp h2).2
        · rcases List.mem_cons.mp hm with rfl | htail
          · exact hcond2.2
          · exact priority_all_registered m (mem_staticFallback htail)
      · simp only [select_model, hcond, if_false] at hl
        exact auto_ok l hl m hm

/-- C7 (witness): the theorem applied at a concrete registered request. -/
theorem select_model_requested_first_and_all_registered_witness :
    (some "moonshot-k2" = some "moonshot-k2" ∧ isRegistered "moonshot-k2" = true) ∧
    (∃ l, select_model [] (some "moonshot-k2") = .ok l ∧ l.head? = some "moonshot-k2") :=
  ⟨⟨rfl, by decide⟩,
    (select_model_requested_first_and_all_registered [] (some "moonshot-k2")).1
      "moonshot-k2" rfl (by decide)⟩

/-- C4 (counterexample): with recorded samples only for deepseek-r1 (three
runs) and every other candidate at zero samples, a request for llama3-70b
still reorders the fallback remainder — deepseek-r1 jumps ahead of the
zero-sample candidates — although the claim demands the static order
whenever any remaining candidate has fewer than 3 samples. -/
theorem select_model_zero_samples_do_not_block_reorder :
    select_model [("deepseek-r1", [(1 : ℚ), 1, 1])] (some "llama3-70b") =
      .ok ["llama3-70b", "deepseek-r1", "gemma2-9b", "openai-oss-20b",
        "moonshot-k2", "gemini-2.5-flash", "gemini-2.0-flash"] ∧
    ("llama3-70b" :: staticFallback "llama3-70b") ≠
      ["llama3-70b", "deepseek-r1", "gemma2-9b", "openai-oss-20b",
        "moonshot-k2", "gemini-2.5-flash", "gemini-2.0-flash"] := by
  constructor
  · decide
  · decide

/-- C4 (amended): for a registered requested model the fallback remainder is
re-sorted by ascending mean latency only when every model *with a recorded
history* has at least 3 samples: a model listed with fewer than 3 samples
forces the static order, but candidates with no recorded history at all do
not block the re-sort (they are ranked with infinite mean, after all measured
models). -/
theorem select_model_reorder_condition (sp : SpeedsMap) (r : String)
    (hreg : isRegistered r = true) :
    ((∃ p ∈ sp, p.2.length < min_attempts_for_avg) →
      select_model sp (some r) = .ok (r :: staticFallback r)) ∧
    (allRecordedAtLeastMin sp = true →
      ∃ tail, select_model sp (some r) = .ok (r :: tail) ∧
        tail.Perm ((staticFallback r).filter (fun m => isRegistered m)) ∧
        List.Sorted (fun a b => meanKeyDefaultTop sp a ≤ meanKeyDefaultTop sp b) tail) := by
  have hsel : select_model sp (some r) = .ok (selectRequested sp r) := by
    simp [select_model, hreg, registered_truthy hreg]
  constructor
  · rintro ⟨p, hp, hlen⟩
    have hall : allRecordedAtLeastMin sp = false := by
      cases hb : allRecordedAtLeastMin sp with
      | false => rfl
      | true =>
        exfalso
        unfold allRecordedAtLeastMin at hb
        have h3 := List.all_eq_true.mp hb p hp
        simp only [decide_eq_true_eq] at h3
        omega
    rw [hsel]
    simp [selectRequested, hall]
  · intro hall
    refine ⟨pySortedByKey (meanKeyDefaultTop sp)
      ((staticFallback r).filter (fun m => isRegistered m)), ?_, ?_, ?_⟩
    · rw [hsel]
      simp [selectRequested, hall]
    · exact List.perm_insertionSort _ _
    · haveI : IsTotal String (fun a b => meanKeyDefaultTop sp a ≤ meanKeyDefaultTop sp b) :=
        ⟨fun a b => le_total _ _⟩
      haveI : IsTrans String (fun a b => meanKeyDefaultTop sp a ≤ meanKeyDefaultTop sp b) :=
        ⟨fun _ _ _ hab hbc => le_trans hab hbc⟩
      exact List.sorted_insertionSort _ _

/-- C4 (witness): both branches of the amended theorem at concrete states. -/
theorem select_model_reorder_condition_witness :
    isRegistered "llama3-70b" = true ∧
    (∃ p ∈ [("gemma2-9b", [(1 : ℚ)])], p.2.length < min_attempts_for_avg) ∧
    select_model [("gemma2-9b", [(1 : ℚ)])] (some "llama3-70b") =
      .ok ("llama3-70b" :: staticFallback "llama3-70b") := by
  refine ⟨by decide, ⟨("gemma2-9b", [(1 : ℚ)]), by simp, by decide⟩, ?_⟩
  exact (select_model_reorder_condition [("gemma2-9b", [(1 : ℚ)])] "llama3-70b"
    (by decide)).1 ⟨("gemma2-9b", [(1 : ℚ)]), by simp, by decide⟩

/-! ## C1: `_try_models` -/

theorem tryModelsGo_status (env : AttemptEnv) :
    ∀ (models : List String) (sp : SpeedsMap) (le : Option String),
      (tryModelsGo env models sp le).1.status = "success" ∨
      (tryModelsGo env models sp le).1.status = "all_failed" := by
  intro models
  induction models with
  | nil => intro sp le; right; rfl
  | cons m rest ih =>
    intro sp le
    cases hm : env m with
    | unavailable => simpa [tryModelsGo, hm] using ih sp le
    | success out t => left; simp [tryModelsGo, hm]
    | failure err t => simpa [tryModelsGo, hm] using ih _ _

theorem tryModelsGo_all_failed (env : AttemptEnv) :
    ∀ (models : List String), (∀ m ∈ models, isSuccess (env m) = false) →
      ∀ (sp : SpeedsMap) (le : Option String),
        (tryModelsGo env models sp le).1.status = "all_failed" ∧
        (tryModelsGo env models sp le).1.output =
          allFailedMessage (lastErrAfter env models le) := by
  intro models
  induction models with
  | nil => intro _ sp le; exact ⟨rfl, rfl⟩
  | cons m rest ih =>
    intro h sp le
    have hm := h m (List.mem_cons_self m rest)
    have hrest : ∀ x ∈ rest, isSuccess (env x) = false :=
      fun x hx => h x (List.mem_cons_of_mem m hx)
    cases hmo : env m with
    | unavailable => simpa [tryModelsGo, hmo, lastErrAfter] using ih hrest sp le
    | success out t => rw [hmo] at hm; simp [isSuccess] at hm
    | failure err t => simpa [tryModelsGo, hmo, lastErrAfter] using ih hrest _ _

theorem tryModelsGo_first_success (env : AttemptEnv) :
    ∀ (pre : List String), (∀ p ∈ pre, isSuccess (env p) = false) →
      ∀ (m out : String) (t : ℚ) (rest : List String), env m = .success out t →
        ∀ (sp : SpeedsMap) (le : Option String),
          (tryModelsGo env (pre ++ m :: rest) sp le).1.status = "success" ∧
          (tryModelsGo env (pre ++ m :: rest) sp le).1.output = out ∧
          (tryModelsGo env (pre ++ m :: rest) sp le).1.model = m := by
  intro pre
  induction pre with
  | nil =>
    intro _ m out t rest hm sp le
    simp [tryModelsGo, hm]
  | cons p ps ih =>
    intro h m out t rest hm sp le
    have hp := h p (List.mem_cons_self p ps)
    have hps : ∀ x ∈ ps, isSuccess (env x) = false :=
      fun x hx => h x (List.mem_cons_of_mem p hx)
    cases hpo : env p with
    | unavailable => simpa [tryModelsGo, hpo] using ih hps m out t rest hm sp le
    | success o2 t2 => rw [hpo] at hp; simp [isSuccess] at hp
    | failure err t2 => simpa [tryModelsGo, hpo] using ih hps m out t rest hm _ _

/-- C1: `_try_models` never raises: for every outcome environment, candidate
list and starting state, the result status is either `success` or
`all_failed`; when no candidate invocation succeeds the status is
`all_failed` and the output message embeds the last invocation error; and the
first successful candidate (everything before it unavailable or failing)
determines the result immediately, with status `success` and its output. -/
theorem try_models_total_and_terminal (env : AttemptEnv) (sp : SpeedsMap)
    (models : List String) :
    ((try_models env sp models).1.status = "success" ∨
      (try_models env sp models).1.status = "all_failed") ∧
    ((∀ m ∈ models, isSuccess (env m) = false) →
      (try_models env sp models).1.status = "all_failed" ∧
      (try_models env sp models).1.output =
        allFailedMessage (lastFailureErr env models) ∧
      (∀ err, lastFailureErr env models = some err →
        ∃ before, (try_models env sp models).1.output = before ++ err)) ∧
    (∀ pre m rest out t, models = pre ++ m :: rest →
      (∀ p ∈ pre, isSuccess (env p) = false) →
      env m = AttemptOutcome.success out t →
      (try_models env sp models).1.status = "success" ∧
      (try_models env sp models).1.output = out ∧
      (try_models env sp models).1.model = m) := by
  refine ⟨tryModelsGo_status env models sp none, ?_, ?_⟩
  · intro h
    obtain ⟨h1, h2⟩ := tryModelsGo_all_failed env models h sp none
    refine ⟨h1, h2, ?_⟩
    intro err herr
    refine ⟨"Error: All model attempts failed. Last error: ", ?_⟩
    unfold try_models
    rw [h2]
    unfold lastFailureErr at herr
    rw [show lastErrAfter env models none = some err from herr]
    rfl
  · rintro pre m rest out t rfl hpre hm
    exact tryModelsGo_first_success env pre hpre m out t rest hm sp none

/-- C1 (witness): the theorem applied at two concrete environments, one with
every candidate failing or unavailable and one with a succeeding second
candidate. -/
theorem try_models_total_and_terminal_witness :
    (∀ m ∈ ["a", "b"], isSuccess
      ((fun n => if n = "b" then AttemptOutcome.failure "boom" 1
        else AttemptOutcome.unavailable) m) = false) ∧
    (try_models (fun n => if n = "b" then AttemptOutcome.failure "boom" 1
      else AttemptOutcome.unavailable) [] ["a", "b"]).1.status = "all_failed" ∧
    (try_models (fun n => if n = "a" then AttemptOutcome.unavailable
      else AttemptOutcome.success "OUT" 1) [] ["a", "b"]).1.output = "OUT" := by
  refine ⟨by decide, ?_, ?_⟩
  · exact ((try_models_total_and_terminal _ [] ["a", "b"]).2.1 (by decide)).1
  · exact ((try_models_total_and_terminal _ [] ["a", "b"]).2.2 ["a"] "b" [] "OUT" 1 rfl
      (by decide) (by decide)).2.1

/-! ## C9: performance-store round trip -/

theorem mean_replicate {n : ℕ} (hn : n ≠ 0) (a : ℚ) :
    mean (List.replicate n a) = a := by
  unfold mean
  rw [List.sum_replicate, List.length_replicate, nsmul_eq_mul]
  have hcast : (n : ℚ) ≠ 0 := Nat.cast_ne_zero.mpr hn
  field_simp

/-- C9 (counterexample): a model whose only recorded latency is `0` (an
instantaneous failed attempt rounds to `0.0`) has a non-empty in-memory
history, persists as `(avg_speed, num_runs) = (0, 1)`, but the load-time
truthiness guard `if row.get("avg_speed") and row.get("num_runs")` drops the
row, so no history is reconstructed: length 0 instead of the persisted count
1. -/
theorem performance_round_trip_zero_mean_dropped :
    [(0 : ℚ)] ≠ [] ∧
    save_model_performance [(0 : ℚ)] = (0, 1) ∧
    load_model_performance [("m", save_model_performance [(0 : ℚ)])] = [] := by
  refine ⟨by simp, ?_, ?_⟩
  · unfold save_model_performance mean
    norm_num
  · unfold load_model_performance loadPerformanceRow save_model_performance mean
    norm_num

/-- C9 (amended): for every model whose in-memory latency history is non-empty
*and has non-zero mean*, persisting the `(mean, count)` aggregate and
reloading reconstructs a history of length equal to the persisted count whose
mean equals the persisted mean; a history with mean `0` is dropped by the
load-time truthiness guard. -/
theorem performance_round_trip (name : String) (history : List ℚ)
    (hne : history ≠ []) (hmean : mean history ≠ 0) :
    (save_model_performance history).2 = history.length ∧
    List.lookup name
      (load_model_performance [(name, save_model_performance history)]) =
      some (List.replicate history.length (mean history)) ∧
    (List.replicate history.length (mean history)).length = history.length ∧
    mean (List.replicate history.length (mean history)) = mean history := by
  have hlen : history.length ≠ 0 := by
    simpa using fun h => hne (List.length_eq_zero.mp h)
  refine ⟨rfl, ?_, by simp, mean_replicate hlen (mean history)⟩
  unfold load_model_performance loadPerformanceRow save_model_performance
  simp only [List.foldl_cons, List.foldl_nil]
  rw [if_pos ⟨hmean, hlen⟩]
  simp [List.lookup]

/-- C9 (witness): the amended theorem at the one-sample history `[2]`. -/
theorem performance_round_trip_witness :
    ([(2 : ℚ)] ≠ []) ∧ mean [(2 : ℚ)] ≠ 0 ∧
    mean (List.replicate ([(2 : ℚ)].length) (mean [(2 : ℚ)])) = mean [(2 : ℚ)] :=
  ⟨by simp, by simp [mean], (performance_round_trip "m" [(2 : ℚ)] (by simp)
    (by simp [mean])).2.2.2⟩

/-! ## C6: retrieval fallback -/

theorem get_documents_current_method_length_le (env : RetrievalEnv)
    (topic : String) (k : ℕ) :
    (get_documents_current_method env topic k).length ≤ k := by
  unfold get_documents_current_method
  split
  · simp
  · split
    · simp
    · split
      · simp
      · rw [List.length_map, List.length_take]
        omega

/-- C6: retrieval never raises: a successful vector search returns its
documents; on any vector-search failure (or absent vector store) the result
is the direct equality-filtered scan bounded to `k` rows; and when that
fallback also fails — no client, a raising query, or no matching rows — the
result is the empty list, so the caller always receives a list. -/
theorem retrieval_fallback_never_raises (env : RetrievalEnv)
    (topic query : String) (k : ℕ) :
    (env.hasVectorstore = true → ∀ docs, env.vectorSearch = some docs →
      get_relevant_documents_with_fallback env topic query k = docs) ∧
    ((env.hasVectorstore = false ∨ env.vectorSearch = none) →
      get_relevant_documents_with_fallback env topic query k =
        get_documents_current_method env topic k ∧
      (get_relevant_documents_with_fallback env topic query k).length ≤ k) ∧
    ((env.hasVectorstore = false ∨ env.vectorSearch = none) →
      (env.hasSupabase = false ∨ env.scanRaises = true ∨
        env.documentsTable.filter (fun r => r.topic == topic) = []) →
      get_relevant_documents_with_fallback env topic query k = []) := by
  have hfb : (env.hasVectorstore = false ∨ env.vectorSearch = none) →
      get_relevant_documents_with_fallback env topic query k =
        get_documents_current_method env topic k := by
    rintro (hv | hv) <;> simp [get_relevant_documents_with_fallback, hv]
  refine ⟨?_, fun h => ⟨hfb h, ?_⟩, ?_⟩
  · intro hv docs hd
    simp [get_relevant_documents_with_fallback, hv, hd]
  · rw [hfb h]
    exact get_documents_current_method_length_le env topic k
  · intro h hfail
    rw [hfb h]
    unfold get_documents_current_method
    rcases hfail with hs | hs | hs
    · simp [hs]
    · simp [hs]
    · split
      · rfl
      · split
        · rfl
        · rw [hs]
          simp

/-- C6 (witness): the theorem applied at a concrete failing-vector-search
environment with a three-row table, and at a fully failing environment. -/
theorem retrieval_fallback_never_raises_witness :
    ((false = false ∨ (some ["v"] : Option (List String)) = none) →
      (true = false ∨ false = true ∨
        (RetrievalEnv.mk false (some ["v"]) true false
          [⟨"c1", "T"⟩, ⟨"c2", "T"⟩, ⟨"c3", "U"⟩]).documentsTable.filter
            (fun r => r.topic == "Z") = []) →
      get_relevant_documents_with_fallback
        (RetrievalEnv.mk false (some ["v"]) true false
          [⟨"c1", "T"⟩, ⟨"c2", "T"⟩, ⟨"c3", "U"⟩]) "Z" "q" 2 = []) ∧
    (get_relevant_documents_with_fallback
      (RetrievalEnv.mk true none true false
        [⟨"c1", "T"⟩, ⟨"c2", "T"⟩, ⟨"c3", "U"⟩]) "T" "q" 2).length ≤ 2 :=
  ⟨(retrieval_fallback_never_raises
      (RetrievalEnv.mk false (some ["v"]) true false
        [⟨"c1", "T"⟩, ⟨"c2", "T"⟩, ⟨"c3", "U"⟩]) "Z" "q" 2).2.2,
    ((retrieval_fallback_never_raises
      (RetrievalEnv.mk true none true false
        [⟨"c1", "T"⟩, ⟨"c2", "T"⟩, ⟨"c3", "U"⟩]) "T" "q" 2).2.1
      (Or.inr rfl)).2⟩

/-! ## C8: example sampling from the topic index -/

theorem snd_mem_of_mem_enumFrom {α : Type} :
    ∀ (l : List α) (n : ℕ) (p : ℕ × α), p ∈ List.enumFrom n l → p.2 ∈ l := by
  intro l
  induction l with
  | nil => intro n p h; simp [List.enumFrom] at h
  | cons a as ih =>
    intro n p h
    rw [List.enumFrom] at h
    rcases List.mem_cons.mp h with rfl | h2
    · exact List.mem_cons_self a as
    · exact List.mem_cons_of_mem a (ih (n + 1) p h2)

theorem topicIndexQuery_sound (table : List TopicIndexRow) (subject topic : String)
    (now : ℚ) (maxExamples : ℕ) :
    (∀ r ∈ topicIndexQuery table subject topic now maxExamples,
      r ∈ table ∧ r.subject = subject ∧ r.topic = topic ∧ now < r.expires_at) ∧
    (topicIndexQuery table subject topic now maxExamples).length ≤ 2 * maxExamples := by
  constructor
  · intro r hr
    have h1 : r ∈ pySortedByKey (fun r => -r.created_at)
        (table.filter (fun r => r.subject == subject && r.topic == topic &&
          decide (now < r.expires_at))) := List.take_subset _ _ hr
    have h2 : r ∈ table.filter (fun r => r.subject == subject && r.topic == topic &&
        decide (now < r.expires_at)) :=
      ((List.perm_insertionSort _ _).mem_iff).mp h1
    have h3 := List.mem_filter.mp h2
    have h4 : (r.subject = subject ∧ r.topic = topic) ∧ now < r.expires_at := by
      simpa using h3.2
    exact ⟨h3.1, h4.1.1, h4.1.2, h4.2⟩
  · unfold topicIndexQuery
    rw [List.length_take]
    omega

/-- C8: `_get_cached_questions_as_examples` returns at most `maxExamples`
formatted examples, each derived from a stored `topic_questions_index` row of
the queried subject and topic whose `expires_at` is strictly after the
query-time `now`, and the candidate pool it reads is bounded to
`2 * maxExamples` rows; `random.sample` is only assumed to return `n` of the
given candidates. -/
theorem sample_examples_bounded_and_unexpired
    (sample : List String → ℕ → List String)
    (hsample : ∀ xs n, n ≤ xs.length →
      (sample xs n).length = n ∧ ∀ q ∈ sample xs n, q ∈ xs)
    (hasSupabase queryRaises : Bool) (table : List TopicIndexRow)
    (subject topic : String) (maxExamples : ℕ) (now : ℚ) :
    (get_cached_questions_as_examples sample hasSupabase queryRaises table
      subject topic maxExamples now).length ≤ maxExamples ∧
    (∀ e ∈ get_cached_questions_as_examples sample hasSupabase queryRaises table
        subject topic maxExamples now,
      ∃ i r, r ∈ table ∧ r.subject = subject ∧ r.topic = topic ∧
        now < r.expires_at ∧ e = numberedExample i r.question_text) ∧
    (topicIndexQuery table subject topic now maxExamples).length ≤
      2 * maxExamples := by
  refine ⟨?_, ?_, (topicIndexQuery_sound table subject topic now maxExamples).2⟩
  · unfold get_cached_questions_as_examples
    split
    · simp
    · split
      · simp
      · split
        · simp
        · split
          · simp
          · rw [List.length_map, List.enumFrom_length,
              (hsample _ _ (min_le_left _ _)).1]
            exact min_le_right _ _
  · intro e he
    unfold get_cached_questions_as_examples at he
    split at he
    · simp at he
    · split at he
      · simp at he
      · split at he
        · simp at he
        · split at he
          · simp at he
          · rcases List.mem_map.mp he with ⟨p, hp, rfl⟩
            have hq : p.2 ∈ sample
                (sampledQuestionPool table subject topic now maxExamples)
                (min (sampledQuestionPool table subject topic now
                  maxExamples).length maxExamples) :=
              snd_mem_of_mem_enumFrom _ 1 p hp
            have hq2 := (hsample _ _ (min_le_left _ _)).2 _ hq
            have hq3 := (List.mem_filter.mp hq2).1
            rcases List.mem_map.mp hq3 with ⟨r, hr, hrq⟩
            obtain ⟨hrt, hrs, hrtop, hrex⟩ :=
              (topicIndexQuery_sound table subject topic now maxExamples).1 r hr
            exact ⟨p.1, r, hrt, hrs, hrtop, hrex, by rw [hrq]⟩

/-- C8 (helper): Python `random.sample` modeled as a plain prefix draw
satisfies the sampling contract. -/
theorem take_sample_contract :
    ∀ (xs : List String) (n : ℕ), n ≤ xs.length →
      ((fun (ys : List String) (k : ℕ) => ys.take k) xs n).length = n ∧
      ∀ q ∈ (fun (ys : List String) (k : ℕ) => ys.take k) xs n, q ∈ xs := by
  intro xs n h
  constructor
  · rw [List.length_take]; omega
  · intro q hq; exact List.take_subset _ _ hq

/-- C8 (witness): the theorem applied with the prefix-draw sample function on
a concrete one-row table. -/
theorem sample_examples_bounded_and_unexpired_witness :
    (get_cached_questions_as_examples (fun ys k => ys.take k) true false
      [⟨"GS1", "Polity", "Q?", 0, 1⟩] "GS1" "Polity" 3 0).length ≤ 3 :=
  (sample_examples_bounded_and_unexpired (fun ys k => ys.take k)
    take_sample_contract true false [⟨"GS1", "Polity", "Q?", 0, 1⟩]
    "GS1" "Polity" 3 0).1

/-! ## C2: `safe_parse_questions` -/

theorem processItems_length_le :
    ∀ (xs : List JVal) (qs : List Question),
      processItems xs = some qs → qs.length ≤ xs.length := by
  intro xs
  induction xs with
  | nil =>
    intro qs h
    injection h with h
    subst h
    simp
  | cons v vs ih =>
    intro qs h
    unfold processItems at h
    cases hv : questionOfItem v with
    | none => rw [hv] at h; exact absurd h (by simp)
    | some o =>
      rw [hv] at h
      cases o with
      | none =>
        have := ih qs h
        simpa using Nat.le_succ_of_le this
      | some q =>
        cases hrec : processItems vs with
        | none => rw [hrec] at h; exact absurd h (by simp)
        | some qs2 =>
          rw [hrec] at h
          simp only [Option.map_some] at h
          injection h with h
          subst h
          simpa using ih qs2 hrec

theorem pyTrimOpt_some_length {α : Type} (n : ℕ) (hn : 1 ≤ n) (xs : List α) :
    (pyTrimOpt (some n) xs).length ≤ n := by
  show (if n = 0 then xs else xs.take n).length ≤ n
  rw [if_neg (by omega), List.length_take]
  omega

theorem pyTrimOpt_pos {α : Type} (n : ℕ) (hn : 1 ≤ n) (xs : List α)
    (hxs : xs ≠ []) : 0 < (pyTrimOpt (some n) xs).length := by
  show 0 < (if n = 0 then xs else xs.take n).length
  rw [if_neg (by omega), List.length_take]
  have := List.length_pos.mpr hxs
  omega

theorem jsonStage_some {num : Option ℕ} {v : JVal} {r : List Question}
    (h : jsonStage num v = some r) :
    r ≠ [] ∧ ∀ n, num = some n → 1 ≤ n → r.length ≤ n := by
  cases v with
  | jarr xs =>
    have h2 : (match processItems (pyTrimOpt num xs) with
        | some results => if results.isEmpty = true then none else some results
        | none => none) = some r := h
    cases hp : processItems (pyTrimOpt num xs) with
    | none =>
      rw [hp] at h2
      exact absurd h2 (by simp)
    | some results =>
      rw [hp] at h2
      by_cases hres : results.isEmpty = true
      · rw [show (match some results with
            | some results => if results.isEmpty = true then none else some results
            | none => (none : Option (List Question))) =
            (if results.isEmpty = true then none else some results) from rfl,
          if_pos hres] at h2
        exact absurd h2 (by simp)
      · rw [show (match some results with
            | some results => if results.isEmpty = true then none else some results
            | none => (none : Option (List Question))) =
            (if results.isEmpty = true then none else some results) from rfl,
          if_neg hres] at h2
        injection h2 with h2
        subst h2
        refine ⟨fun hc => hres (by simp [hc]), ?_⟩
        rintro n rfl hn
        exact le_trans (processItems_length_le _ _ hp)
          (pyTrimOpt_some_length n hn xs)
  | jnull => exact absurd h (by simp [jsonStage])
  | jbool b => exact absurd h (by simp [jsonStage])
  | jnum q => exact absurd h (by simp [jsonStage])
  | jstr s => exact absurd h (by simp [jsonStage])
  | jobj fields => exact absurd h (by simp [jsonStage])

/-- C2 (counterexample): on the two-character prose input `"hi"` with
requested count 3, every parse stage comes up empty — in particular the final
paragraph fallback drops paragraphs of length at most 10 — so the pipeline
returns the empty list, not a non-empty one. -/
theorem safe_parse_questions_empty_on_short_prose :
    safe_parse_questions "hi" (some 3) = [] := by
  decide

/-- C2 (amended): `safe_parse_questions` terminates for every input and, for a
requested count `num ≥ 1`, returns at most `num` questions; the result is
guaranteed non-empty only when the cleaned text has a blank-line-separated
paragraph longer than 10 characters (the earlier JSON/regex stages return
only non-empty lists, and the final fallback keeps exactly such paragraphs) —
short prose may yield the empty list. -/
theorem safe_parse_questions_trimmed_and_conditionally_nonempty
    (output : String) (num : ℕ) (hnum : 1 ≤ num) :
    (safe_parse_questions output (some num)).length ≤ num ∧
    (fallbackParagraphs (cleanedOutput output) ≠ [] →
      safe_parse_questions output (some num) ≠ []) := by
  constructor
  · unfold safe_parse_questions
    split
    next r h2 =>
      rcases Option.bind_eq_some.mp h2 with ⟨v, hv, hs⟩
      exact (jsonStage_some hs).2 num rfl hnum
    next h2 =>
      split
      next r h3 =>
        rcases Option.bind_eq_some.mp h3 with ⟨span, hspan, hrest⟩
        rcases Option.bind_eq_some.mp hrest with ⟨v, hv, hs⟩
        exact (jsonStage_some hs).2 num rfl hnum
      next h3 =>
        split
        · rw [List.length_map]
          exact pyTrimOpt_some_length num hnum _
        · rw [List.length_map, List.enumFrom_length]
          exact pyTrimOpt_some_length num hnum _
  · intro hfb
    unfold safe_parse_questions
    split
    next r h2 =>
      rcases Option.bind_eq_some.mp h2 with ⟨v, hv, hs⟩
      exact (jsonStage_some hs).1
    next h2 =>
      split
      next r h3 =>
        rcases Option.bind_eq_some.mp h3 with ⟨span, hspan, hrest⟩
        rcases Option.bind_eq_some.mp hrest with ⟨v, hv, hs⟩
        exact (jsonStage_some hs).1
      next h3 =>
        split
        next hcand =>
          have hc : formatQuestionsChars (cleanedOutput output) ≠ [] := by
            simpa using hcand
          apply List.length_pos.mp
          rw [List.length_map]
          exact pyTrimOpt_pos num hnum _ hc
        next hcand =>
          apply List.length_pos.mp
          rw [List.length_map, List.enumFrom_length]
          exact pyTrimOpt_pos num hnum _ hfb

/-- C2 (witness): the amended theorem at a long-paragraph prose input. -/
theorem safe_parse_questions_trimmed_witness :
    (1 ≤ 2) ∧
    fallbackParagraphs (cleanedOutput "A long enough paragraph of prose.") ≠ [] ∧
    ((safe_parse_questions "A long enough paragraph of prose." (some 2)).length ≤ 2 ∧
      safe_parse_questions "A long enough paragraph of prose." (some 2) ≠ []) := by
  refine ⟨by decide, by decide, ?_, ?_⟩
  · exact (safe_parse_questions_trimmed_and_conditionally_nonempty
      "A long enough paragraph of prose." 2 (by decide)).1
  · exact (safe_parse_questions_trimmed_and_conditionally_nonempty
      "A long enough paragraph of prose." 2 (by decide)).2 (by decide)

/-! ## C5: stratified sampler (modelled from the spec) -/

theorem length_filter_split {α : Type} (l : List α) (p : α → Bool) :
    (l.filter p).length + (l.filter (fun a => !(p a))).length = l.length :=
  (List.length_eq_length_filter_add (l := l) p).symm

theorem strataDraw_subset (docs : List Document) (n : ℕ) :
    ∀ d ∈ strataDraw docs n, d ∈ docs := by
  intro d hd
  unfold strataDraw at hd
  rcases List.mem_flatMap.mp hd with ⟨t, ht, hdt⟩
  exact (List.mem_filter.mp (List.take_subset _ _ hdt)).1

theorem strataDraw_nodup (docs : List Document) (n : ℕ) (h : docs.Nodup) :
    (strataDraw docs n).Nodup := by
  unfold strataDraw
  rw [List.nodup_flatMap]
  constructor
  · intro t ht
    exact ((List.take_sublist _ _).nodup (h.filter _))
  · have htags : (strataTags docs).Nodup := List.nodup_dedup _
    refine htags.imp ?_
    intro t u htu
    intro d hdt hdu
    have h1 : d.topicTag = t := by
      simpa using (List.mem_filter.mp (List.take_subset _ _ hdt)).2
    have h2 : d.topicTag = u := by
      simpa using (List.mem_filter.mp (List.take_subset _ _ hdu)).2
    exact htu (h1 ▸ h2)

/-- C5 (counterexample): three documents in three singleton strata with
`n = 2`: each stratum is allocated `round(1/3 * 2) = 1` draw, rounding
over-allocates, and the sampler returns all 3 documents — not
`min(n, |documents|) = 2`. -/
theorem sample_not_exactly_min :
    (sample [⟨"d1", "a"⟩, ⟨"d2", "b"⟩, ⟨"d3", "c"⟩] 2).length = 3 ∧
    min 2 ([(⟨"d1", "a"⟩ : Document), ⟨"d2", "b"⟩, ⟨"d3", "c"⟩].length) = 2 := by
  constructor
  · decide
  · decide

/-- C5 (amended, modelled from the spec): for duplicate-free document lists,
`sample(documents, n)` returns all documents unchanged when
`|documents| ≤ n`; its result is always a set of distinct documents drawn
from the input; and when `n ≤ |documents|` the result has at least `n` and at
most `|documents|` elements — rounding can over-allocate past `n` (see the
counterexample), and a stratum whose rounded allocation is 0 can be left
without a representative, so neither "exactly `min(n, |documents|)`" nor full
stratum coverage holds. -/
theorem sample_spec_amended (docs : List Document) (n : ℕ) (hnd : docs.Nodup) :
    (docs.length ≤ n → sample docs n = docs) ∧
    (sample docs n).Nodup ∧
    (∀ d ∈ sample docs n, d ∈ docs) ∧
    (n ≤ docs.length → n ≤ (sample docs n).length ∧
      (sample docs n).length ≤ docs.length) := by
  by_cases hle : docs.length ≤ n
  · unfold sample
    rw [if_pos hle]
    exact ⟨fun _ => rfl, hnd, fun d hd => hd, fun hge => by omega⟩
  · have hchosen_nd : (strataDraw docs n).Nodup := strataDraw_nodup docs n hnd
    have hchosen_sub : ∀ d ∈ strataDraw docs n, d ∈ docs := strataDraw_subset docs n
    have hchosen_le : (strataDraw docs n).length ≤ docs.length :=
      (hchosen_nd.subperm hchosen_sub).length_le
    have hnotc : ∀ d ∈ docs.filter (fun d => !((strataDraw docs n).contains d)),
        d ∉ strataDraw docs n := by
      intro d hd
      have := (List.mem_filter.mp hd).2
      simpa using this
    have hfc : (docs.filter (fun d => (strataDraw docs n).contains d)).length ≤
        (strataDraw docs n).length := by
      refine List.Subperm.length_le (List.Nodup.subperm (hnd.filter _) ?_)
      intro d hd
      have := (List.mem_filter.mp hd).2
      simpa using this
    have hsplit := length_filter_split docs (fun d => (strataDraw docs n).contains d)
    unfold sample
    rw [if_neg hle]
    by_cases hlt : (strataDraw docs n).length < n
    · rw [if_pos hlt]
      have hfill_nd : ((docs.filter
          (fun d => !((strataDraw docs n).contains d))).take
            (n - (strataDraw docs n).length)).Nodup :=
        (List.take_sublist _ _).nodup (hnd.filter _)
      have hdisj : (strataDraw docs n).Disjoint
          ((docs.filter (fun d => !((strataDraw docs n).contains d))).take
            (n - (strataDraw docs n).length)) := by
        intro d hd1 hd2
        exact hnotc d (List.take_subset _ _ hd2) hd1
      refine ⟨fun h => absurd h hle, hchosen_nd.append hfill_nd hdisj, ?_, ?_⟩
      · intro d hd
        rcases List.mem_append.mp hd with hd | hd
        · exact hchosen_sub d hd
        · exact (List.mem_filter.mp (List.take_subset _ _ hd)).1
      · intro hge
        rw [List.length_append, List.length_take]
        omega
    · rw [if_neg hlt]
      exact ⟨fun h => absurd h hle, hchosen_nd, hchosen_sub, fun hge => by omega⟩

/-- C5 (witness): the amended theorem at a concrete duplicate-free document
list with fewer requested samples than documents. -/
theorem sample_spec_amended_witness :
    ([(⟨"d1", "a"⟩ : Document), ⟨"d2", "a"⟩, ⟨"d3", "b"⟩].Nodup) ∧
    (2 ≤ [(⟨"d1", "a"⟩ : Document), ⟨"d2", "a"⟩, ⟨"d3", "b"⟩].length ∧
      2 ≤ (sample [⟨"d1", "a"⟩, ⟨"d2", "a"⟩, ⟨"d3", "b"⟩] 2).length ∧
      (sample [⟨"d1", "a"⟩, ⟨"d2", "a"⟩, ⟨"d3", "b"⟩] 2).length ≤
        [(⟨"d1", "a"⟩ : Document), ⟨"d2", "a"⟩, ⟨"d3", "b"⟩].length) := by
  refine ⟨by decide, by decide, ?_⟩
  exact (sample_spec_amended [⟨"d1", "a"⟩, ⟨"d2", "a"⟩, ⟨"d3", "b"⟩] 2
    (by decide)).2.2.2 (by decide)

end IntrepidQ
